import Mathlib

/-!
Shallow embedding of the core data logic of `src/app.py`
(the Photoprotection Catalogue browser).

Strings are modelled as lists of characters (`Str`), rows of the
catalogue tables as association lists from column name to raw cell text,
and numeric cell values as optional rationals (`Option ℚ`).  Python's
`float(...)` decimal parse is modelled by `pyFloat`, restricted to finite
decimal literals (optional sign, digits with optional fractional part,
optional exponent); the special literals `inf`/`nan` and digit
underscores are outside the model.  Python `str.strip` / `str.lower` are
modelled on ASCII.
-/

namespace Catalogue

/-- Cell text: a Python string, modelled as its list of characters. -/
abbrev Str : Type := List Char

/-- A table row: column name ↦ raw cell text, in column order
(a pandas `Series` produced by `df.iterrows()` with `dtype=str`). -/
abbrev Row : Type := List (Str × Str)

/-- `row.get(key, "")` on a pandas `Series`: the value at the first
matching column label, defaulting to the empty string. -/
def rowGet : Row → Str → Str
  | [], _ => []
  | (k, v) :: rest, key => if k = key then v else rowGet rest key

/-- `row.values`: the cell values in column order. -/
def rowValues (row : Row) : List Str :=
  row.map Prod.snd

/-- ASCII decimal digit test (`'0'` to `'9'`). -/
def isDigit (c : Char) : Bool :=
  48 ≤ c.toNat && c.toNat ≤ 57

/-- ASCII whitespace as stripped by Python `str.strip()`. -/
def isPySpace (c : Char) : Bool :=
  c.toNat = 32 || c.toNat = 9 || c.toNat = 10 ||
  c.toNat = 13 || c.toNat = 11 || c.toNat = 12

/-- Characters stripped by `.strip(" —")` in `make_label`:
space and the em dash. -/
def isSepChar (c : Char) : Bool :=
  c = ' ' || c = '—'

/-- ASCII `str.lower` on one character. -/
def toLowerAscii (c : Char) : Char :=
  if 65 ≤ c.toNat ∧ c.toNat ≤ 90 then Char.ofNat (c.toNat + 32) else c

/-- ASCII `str.lower` on a string. -/
def lowerList (s : Str) : Str :=
  s.map toLowerAscii

/-- Strip characters satisfying `p` from both ends of `l`
(Python `str.strip(chars)`). -/
def stripEnds (p : Char → Bool) (l : Str) : Str :=
  ((l.dropWhile p).reverse.dropWhile p).reverse

/-- `str.strip()`: strip whitespace from both ends. -/
def stripWs (l : Str) : Str :=
  stripEnds isPySpace l

/-- `.strip(" —")`: strip spaces and em dashes from both ends. -/
def stripSep (l : Str) : Str :=
  stripEnds isSepChar l

/-- Numeric value of a digit string (most significant digit first). -/
def digitsToNat (ds : Str) : ℕ :=
  ds.foldl (fun a c => 10 * a + (c.toNat - 48)) 0

/-!
The decimal parse is split in two stages to keep the combinatorial part
of the development decidable: `pyParse` produces the scaled-integer
representation `(m, e) : ℤ × ℤ` of the literal (reading `m * 10 ^ e`),
and `scaledVal` converts it to the rational value.
-/

/-- Value of the scaled-integer representation of a decimal literal. -/
def scaledVal (me : ℤ × ℤ) : ℚ :=
  (me.1 : ℚ) * (10 : ℚ) ^ me.2

/-- Exponent part of a decimal literal after the exponent sign: the
remaining characters must be a non-empty run of digits. -/
def expDigits (m e0 es : ℤ) (ds : Str) : Option (ℤ × ℤ) :=
  if ds ≠ [] ∧ ds.all isDigit = true then
    some (m, e0 + es * (digitsToNat ds : ℤ))
  else none

/-- Exponent part of a decimal literal after `e`/`E`: optional sign,
then digits. -/
def expPart (m e0 : ℤ) : Str → Option (ℤ × ℤ)
  | [] => none
  | c :: t =>
    if c = '+' then expDigits m e0 1 t
    else if c = '-' then expDigits m e0 (-1) t
    else expDigits m e0 1 (c :: t)

/-- After the mantissa `(m, e0)`: either the end of the literal or an
`e`/`E`-introduced exponent. -/
def withExp (m e0 : ℤ) : Str → Option (ℤ × ℤ)
  | [] => some (m, e0)
  | c :: t => if c = 'e' ∨ c = 'E' then expPart m e0 t else none

/-- Continuation of the decimal parse after the leading digit run `ip`:
the argument is the rest of the literal (possibly starting with `'.'`).
The mantissa of `d₁…dⱼ.f₁…fₖ` is the integer `d₁…dⱼf₁…fₖ` with
exponent `-k`. -/
def afterIntPart (sgn : ℤ) (ip : Str) : Str → Option (ℤ × ℤ)
  | [] => if ip.isEmpty then none else some (sgn * (digitsToNat ip : ℤ), 0)
  | c :: r2 =>
    if c = '.' then
      let fp := r2.takeWhile isDigit
      if ip.isEmpty && fp.isEmpty then none
      else withExp (sgn * (digitsToNat (ip ++ fp) : ℤ)) (-(fp.length : ℤ))
        (r2.dropWhile isDigit)
    else if ip.isEmpty then none
    else withExp (sgn * (digitsToNat ip : ℤ)) 0 (c :: r2)

/-- Decimal literal after the optional sign. -/
def pyParseUnsigned (sgn : ℤ) (cs : Str) : Option (ℤ × ℤ) :=
  afterIntPart sgn (cs.takeWhile isDigit) (cs.dropWhile isDigit)

/-- Python `float(s)` on a finite decimal literal, as a scaled integer:
optional sign, then digits with an optional `'.'` and fractional digits
(at least one digit overall), then an optional exponent.  Anything else
fails (`none`). -/
def pyParse : Str → Option (ℤ × ℤ)
  | [] => none
  | c :: t =>
    if c = '+' then pyParseUnsigned 1 t
    else if c = '-' then pyParseUnsigned (-1) t
    else pyParseUnsigned 1 (c :: t)

/-- Python `float(s)` on a finite decimal literal, as a rational. -/
def pyFloat (cs : Str) : Option ℚ :=
  (pyParse cs).map scaledVal

/-- The suffix stripping of `to_float`: remove one trailing `'+'`,
then one trailing `'%'`. -/
def stripSuffixes (s : Str) : Str :=
  let s1 := if s.getLast? = some '+' then s.dropLast else s
  if s1.getLast? = some '%' then s1.dropLast else s1

/-- The decision logic of `to_float` over the scaled-integer parse:
`None ↦ None`; otherwise strip whitespace, map `""`/`"na"`/`"n/a"`/
`"none"` (case-insensitively) to `None`, strip one trailing `'+'` then
one trailing `'%'`, and attempt the decimal parse. -/
def toScaled : Option Str → Option (ℤ × ℤ)
  | none => none
  | some value =>
    let s := stripWs value
    if s = [] ∨ lowerList s = "na".data ∨ lowerList s = "n/a".data ∨
        lowerList s = "none".data then none
    else pyParse (stripSuffixes s)

/-- `to_float` from `src/app.py`: safe conversion of a spreadsheet cell
to a number; parse failures and not-applicable markers yield `none`. -/
def to_float (v : Option Str) : Option ℚ :=
  (toScaled v).map scaledVal

/-- Column name `"Product Brand"`. -/
def colBrand : Str := "Product Brand".data

/-- Column name `"Product Name"`. -/
def colName : Str := "Product Name".data

/-- Column name `"Volume (ml)"`. -/
def colVol : Str := "Volume (ml)".data

/-- Column name `"Material"`. -/
def colMaterial : Str := "Material".data

/-- Column name `"SPF (lab)"`. -/
def colSpfLab : Str := "SPF (lab)".data

/-- Column name `"UVA Protection (Lab)"`. -/
def colUvaLab : Str := "UVA Protection (Lab)".data

/-- Column name `"Blue Light Protection (lab)"`. -/
def colBlLab : Str := "Blue Light Protection (lab)".data

/-- Column name `"Visible Protection (lab)"`. -/
def colVisLab : Str := "Visible Protection (lab)".data

/-- Column name `"Price (£)"`. -/
def colPrice : Str := "Price (£)".data

/-- The sunscreen suffix of `make_label`: `" — <vol> ml"` when the
trimmed volume is non-empty and not (case-insensitively) `"nan"`. -/
def sunExtra (row : Row) : Str :=
  let vol := stripWs (rowGet row colVol)
  if vol ≠ [] ∧ lowerList vol ≠ "nan".data then
    " — ".data ++ vol ++ " ml".data
  else []

/-- The clothing suffix of `make_label`: `" — <material>"` when the
trimmed material is non-empty and not (case-insensitively) `"nan"`. -/
def clothExtra (row : Row) : Str :=
  let mat := stripWs (rowGet row colMaterial)
  if mat ≠ [] ∧ lowerList mat ≠ "nan".data then
    " — ".data ++ mat
  else []

/-- The kind-specific suffix appended by `make_label`. -/
def extraOf (row : Row) (kind : Str) : Str :=
  if kind = "sun".data then sunExtra row
  else if kind = "cloth".data then clothExtra row
  else []

/-- The fallback base label of `make_label`: the first cell value of the
row (in column order) whose trimmed text is non-empty, or `""`. -/
def fallbackCell (row : Row) : Str :=
  ((rowValues row).find? (fun v => !(stripWs v).isEmpty)).getD []

/-- `make_label` from `src/app.py`: join the trimmed brand and name with
`" — "` (omitting empty sides), fall back to the first non-empty cell if
that join is empty, append the kind-specific suffix, and strip leading /
trailing spaces and em dashes. -/
def make_label (row : Row) (kind : Str) : Str :=
  let brand := stripWs (rowGet row colBrand)
  let nm := stripWs (rowGet row colName)
  let base := List.intercalate " — ".data
    ([brand, nm].filter (fun x => !x.isEmpty))
  let base := if base.isEmpty then fallbackCell row else base
  stripSep (base ++ extraOf row kind)

/-- One row of the sunscreen comparison table built by
`build_sunscreen_comparison`. -/
structure SunRecord where
  product : Str
  spfLab : Option ℚ
  uvaPfLab : Option ℚ
  blueLightLab : Option ℚ
  visibleLab : Option ℚ
  pricePerMl : Option ℚ
deriving DecidableEq

/-- One row of the clothing comparison table built by
`build_clothing_comparison`. -/
structure ClothRecord where
  product : Str
  spfLab : Option ℚ
  uvaPfLab : Option ℚ
  blueLightLab : Option ℚ
  visibleLab : Option ℚ
  price : Option ℚ
deriving DecidableEq

/-- The comparison record `build_sunscreen_comparison` assembles for one
selected row: label, the four lab metrics, and price per ml, which is
derived only when the price parses and the volume parses to a non-zero
value (`vol not in (None, 0)`). -/
def sunRecordOf (row : Row) : SunRecord where
  product := make_label row "sun".data
  spfLab := to_float (some (rowGet row colSpfLab))
  uvaPfLab := to_float (some (rowGet row colUvaLab))
  blueLightLab := to_float (some (rowGet row colBlLab))
  visibleLab := to_float (some (rowGet row colVisLab))
  pricePerMl :=
    match to_float (some (rowGet row colPrice)),
        to_float (some (rowGet row colVol)) with
    | some price, some vol => if vol = 0 then none else some (price / vol)
    | _, _ => none

/-- The comparison record `build_clothing_comparison` assembles for one
selected row: label, the four lab metrics, and the total price. -/
def clothRecordOf (row : Row) : ClothRecord where
  product := make_label row "cloth".data
  spfLab := to_float (some (rowGet row colSpfLab))
  uvaPfLab := to_float (some (rowGet row colUvaLab))
  blueLightLab := to_float (some (rowGet row colBlLab))
  visibleLab := to_float (some (rowGet row colVisLab))
  price := to_float (some (rowGet row colPrice))

/-- `build_sunscreen_comparison` from `src/app.py`: an empty selection
yields the empty table, otherwise one comparison record per input row,
in input order. -/
def build_sunscreen_comparison (rows : List Row) : List SunRecord :=
  if rows.isEmpty then [] else rows.map sunRecordOf

/-- `build_clothing_comparison` from `src/app.py`: an empty selection
yields the empty table, otherwise one comparison record per input row,
in input order. -/
def build_clothing_comparison (rows : List Row) : List ClothRecord :=
  if rows.isEmpty then [] else rows.map clothRecordOf

/-- A loaded pandas `DataFrame`: column labels plus one association row
per data row. -/
structure Table where
  cols : List Str
  rows : List Row
deriving DecidableEq

/-- `safe_select_columns` from `src/app.py`: keep only the desired
columns that exist, in desired order; when none exists, keep the index
(row count) and no columns (`df.iloc[:, 0:0]`). -/
def safe_select_columns (df : Table) (cols : List Str) : Table :=
  let present := cols.filter (fun c => df.cols.contains c)
  if present.isEmpty then
    { cols := [], rows := df.rows.map (fun _ => ([] : Row)) }
  else
    { cols := present,
      rows := df.rows.map (fun r => present.map (fun c => (c, rowGet r c))) }

/-- The selection step of the Sunscreens / Clothing tabs: with the
show-all toggle on, the whole table; otherwise the rows whose
`make_label` is one of the chosen label strings
(`mask = labels.isin(chosen)`; `view = df.loc[mask, df.columns]`). -/
def selectRows (tbl : Table) (kind : Str) (chosen : List Str)
    (showAll : Bool) : Table :=
  if showAll then tbl
  else
    { cols := tbl.cols,
      rows := tbl.rows.filter (fun r => chosen.contains (make_label r kind)) }

/-- `pd.DataFrame()`: the empty table. -/
def emptyTable : Table where
  cols := []
  rows := []

/-- Sheet name `"Sunscreens"` (`SHEET_SUN`). -/
def sheetSun : Str := "Sunscreens".data

/-- Sheet name `"Clothing"` (`SHEET_CLO`). -/
def sheetClo : Str := "Clothing".data

/-- The error text `st.error` shows when a sheet cannot be loaded:
`f"Could not load sheet '{sheet}' from {DATA_XLSX.name}: {e}"`. -/
def loadErrorMsg (sheet e : Str) : Str :=
  "Could not load sheet \x27".data ++ sheet ++ "\x27 from ".data ++
    "photoprotection_catalogue_template.xlsx".data ++ ": ".data ++ e

/-- The `try/except` around `load_sheet` at the top level of
`src/app.py`: a successful read gives the loaded table and no error
condition; a failed read gives the empty table plus the descriptive
error text.  The outcome of the underlying read is the `Except` input. -/
def loadResult (sheet : Str) (r : Except Str Table) : Table × Option Str :=
  match r with
  | .ok df => (df, none)
  | .error e => (emptyTable, some (loadErrorMsg sheet e))

/-- The two top-level sheet loads, performed independently. -/
def loadBoth (rSun rClo : Except Str Table) :
    (Table × Option Str) × (Table × Option Str) :=
  (loadResult sheetSun rSun, loadResult sheetClo rClo)

/-- A cache state for `load_sheet`: the memoized `(path, sheet) ↦ table`
entries plus a counter of actual source reads. -/
structure CacheState where
  entries : List ((Str × Str) × Table)
  readCount : ℕ
deriving DecidableEq

/-- Lookup of a `(path, sheet)` key in the cache. -/
def cacheLookup : List ((Str × Str) × Table) → Str × Str → Option Table
  | [], _ => none
  | (k, t) :: rest, key => if k = key then some t else cacheLookup rest key

/-- Modelled from the spec: the `@st.cache_data` memoization wrapped
around `load_sheet` (the cache implementation lives in the Streamlit
library, not in `src/`).  `read` is the underlying sheet read (a pure
function of the `(path, sheet)` key); a cache hit returns the stored
table unchanged, a miss reads the source once and stores the result. -/
def load_sheet_cached (read : Str × Str → Table) (st : CacheState)
    (key : Str × Str) : Table × CacheState :=
  match cacheLookup st.entries key with
  | some t => (t, st)
  | none =>
    let t := read key
    (t, { entries := (key, t) :: st.entries, readCount := st.readCount + 1 })

/-! ### List helper lemmas -/

lemma getLast?_cons_of_ne_nil {a : Char} {l : Str} (h : l ≠ []) :
    (a :: l).getLast? = l.getLast? := by
  simpa using List.getLast?_append_of_ne_nil [a] h

lemma head?_dropWhile {p : Char → Bool} :
    ∀ {l : Str} {c : Char}, (l.dropWhile p).head? = some c → p c = false := by
  intro l
  induction l with
  | nil => intro c h; simp [List.dropWhile] at h
  | cons a t ih =>
    intro c h
    rw [List.dropWhile_cons] at h
    by_cases hpa : p a = true
    · rw [if_pos hpa] at h; exact ih h
    · rw [if_neg hpa] at h
      simp only [List.head?_cons, Option.some.injEq] at h
      subst h
      exact Bool.not_eq_true _ ▸ hpa

lemma all_of_dropWhile_eq_nil {p : Char → Bool} {l : Str}
    (h : l.dropWhile p = []) : ∀ x ∈ l, p x = true := by
  intro x hx
  have hsplit := List.takeWhile_append_dropWhile p l
  rw [h, List.append_nil] at hsplit
  exact List.mem_takeWhile_imp (hsplit ▸ hx)

lemma getLast?_all {p : Char → Bool} :
    ∀ {l : Str}, l ≠ [] → (∀ x ∈ l, p x = true) →
      ∃ c, l.getLast? = some c ∧ p c = true := by
  intro l
  induction l with
  | nil => intro h; exact absurd rfl h
  | cons a t ih =>
    intro _ hall
    by_cases ht : t = []
    · subst ht
      exact ⟨a, by simp, hall a (List.mem_cons_self a [])⟩
    · obtain ⟨c, hc, hpc⟩ := ih ht
        (fun x hx => hall x (List.mem_cons_of_mem a hx))
      exact ⟨c, by rw [getLast?_cons_of_ne_nil ht]; exact hc, hpc⟩

lemma getLast?_dropWhile_of_ne_nil {p : Char → Bool} {l : Str}
    (h : l.dropWhile p ≠ []) : (l.dropWhile p).getLast? = l.getLast? := by
  obtain ⟨t, ht⟩ := List.dropWhile_suffix (l := l) p
  conv_rhs => rw [← ht]
  exact (List.getLast?_append_of_ne_nil t h).symm

/-! ### Character class lemmas -/

lemma isDigit_iff {c : Char} : isDigit c = true ↔ 48 ≤ c.toNat ∧ c.toNat ≤ 57 := by
  simp [isDigit]

lemma headChar_not_space {c : Char}
    (h : isDigit c = true ∨ c = '+' ∨ c = '-' ∨ c = '.') :
    isPySpace c = false := by
  rcases h with h | rfl | rfl | rfl
  · have hb := isDigit_iff.mp h
    simp only [isPySpace, Bool.or_eq_false_iff, decide_eq_false_iff_not]
    omega
  · decide
  · decide
  · decide

lemma lastChar_props {c : Char} (h : isDigit c = true ∨ c = '.') :
    isPySpace c = false ∧ c ≠ '+' ∧ c ≠ '%' := by
  rcases h with h | rfl
  · have hb := isDigit_iff.mp h
    refine ⟨?_, ?_, ?_⟩
    · simp only [isPySpace, Bool.or_eq_false_iff, decide_eq_false_iff_not]
      omega
    · rintro rfl; revert h; decide
    · rintro rfl; revert h; decide
  · exact ⟨by decide, by decide, by decide⟩

lemma toLowerAscii_ne_n {c : Char}
    (h : isDigit c = true ∨ c = '+' ∨ c = '-' ∨ c = '.') :
    toLowerAscii c ≠ 'n' := by
  rcases h with h | rfl | rfl | rfl
  · have hb := isDigit_iff.mp h
    rw [toLowerAscii, if_neg (by omega)]
    intro hc
    have h110 : c.toNat = 110 := by subst hc; decide
    omega
  · decide
  · decide
  · decide

/-! ### Shape of successful decimal parses -/

lemma expDigits_some {m e0 es : ℤ} {ds : Str} {r : ℤ × ℤ}
    (h : expDigits m e0 es ds = some r) :
    ds ≠ [] ∧ ds.all isDigit = true := by
  by_cases hc : ds ≠ [] ∧ ds.all isDigit = true
  · exact hc
  · rw [expDigits, if_neg hc] at h; cases h

lemma expPart_last {m e0 : ℤ} {cs : Str} {r : ℤ × ℤ}
    (h : expPart m e0 cs = some r) :
    ∃ c, cs.getLast? = some c ∧ isDigit c = true := by
  match cs with
  | [] => simp [expPart] at h
  | c :: t =>
    rw [expPart] at h
    split_ifs at h
    · obtain ⟨hne, hall⟩ := expDigits_some h
      obtain ⟨d, hd, hpd⟩ :=
        getLast?_all hne (List.all_eq_true.mp hall)
      exact ⟨d, by rw [getLast?_cons_of_ne_nil hne]; exact hd, hpd⟩
    · obtain ⟨hne, hall⟩ := expDigits_some h
      obtain ⟨d, hd, hpd⟩ :=
        getLast?_all hne (List.all_eq_true.mp hall)
      exact ⟨d, by rw [getLast?_cons_of_ne_nil hne]; exact hd, hpd⟩
    · obtain ⟨hne, hall⟩ := expDigits_some h
      exact getLast?_all hne (List.all_eq_true.mp hall)

lemma withExp_last {m e0 : ℤ} {cs : Str} {r : ℤ × ℤ}
    (h : withExp m e0 cs = some r) :
    cs = [] ∨ ∃ c, cs.getLast? = some c ∧ isDigit c = true := by
  match cs with
  | [] => exact Or.inl rfl
  | c :: t =>
    rw [withExp] at h
    split_ifs at h
    obtain ⟨d, hd, hpd⟩ := expPart_last h
    have ht : t ≠ [] := by rintro rfl; simp at hd
    exact Or.inr ⟨d, by rw [getLast?_cons_of_ne_nil ht]; exact hd, hpd⟩

lemma afterIntPart_last {sgn : ℤ} {ip rest : Str} {r : ℤ × ℤ}
    (hip : ∀ x ∈ ip, isDigit x = true)
    (h : afterIntPart sgn ip rest = some r) :
    ∃ c, (ip ++ rest).getLast? = some c ∧ (isDigit c = true ∨ c = '.') := by
  match rest with
  | [] =>
    rw [afterIntPart] at h
    split_ifs at h with hemp
    obtain ⟨c, hc, hpc⟩ :=
      getLast?_all (by simpa using hemp) hip
    exact ⟨c, by rw [List.append_nil]; exact hc, Or.inl hpc⟩
  | c :: r2 =>
    simp only [afterIntPart] at h
    split_ifs at h with hdot hemp hipe
    · -- fractional part present: `ip ++ '.' :: r2`
      subst hdot
      rcases withExp_last h with hnil | ⟨d, hd, hpd⟩
      · -- no exponent: every character of `r2` is a digit
        have hall : ∀ x ∈ r2, isDigit x = true := all_of_dropWhile_eq_nil hnil
        by_cases hr2 : r2 = []
        · subst hr2
          exact ⟨'.', List.getLast?_concat ip, Or.inr rfl⟩
        · obtain ⟨d, hd, hpd⟩ := getLast?_all hr2 hall
          refine ⟨d, ?_, Or.inl hpd⟩
          rw [List.getLast?_append_of_ne_nil ip (by simp),
            getLast?_cons_of_ne_nil hr2]
          exact hd
      · -- exponent present: its digits close the literal
        have hdw : r2.dropWhile isDigit ≠ [] := by
          rintro h0; rw [h0] at hd; simp at hd
        have hr2 : r2 ≠ [] := by
          rintro rfl; simp at hdw
        refine ⟨d, ?_, Or.inl hpd⟩
        rw [List.getLast?_append_of_ne_nil ip (by simp),
          getLast?_cons_of_ne_nil hr2, ← getLast?_dropWhile_of_ne_nil hdw]
        exact hd
    · -- no fractional part, exponent or junk follows the digits
      rcases withExp_last h with hnil | ⟨d, hd, hpd⟩
      · cases hnil
      · refine ⟨d, ?_, Or.inl hpd⟩
        rw [List.getLast?_append_of_ne_nil ip (by simp)]
        exact hd

lemma pyParseUnsigned_last {sgn : ℤ} {cs : Str} {r : ℤ × ℤ}
    (h : pyParseUnsigned sgn cs = some r) :
    ∃ c, cs.getLast? = some c ∧ (isDigit c = true ∨ c = '.') := by
  have := afterIntPart_last
    (fun x hx => List.mem_takeWhile_imp hx) h
  rwa [List.takeWhile_append_dropWhile] at this

lemma pyParse_last {cs : Str} {r : ℤ × ℤ} (h : pyParse cs = some r) :
    ∃ c, cs.getLast? = some c ∧ (isDigit c = true ∨ c = '.') := by
  match cs with
  | [] => simp [pyParse] at h
  | c :: t =>
    rw [pyParse] at h
    split_ifs at h
    · obtain ⟨d, hd, hpd⟩ := pyParseUnsigned_last h
      have ht : t ≠ [] := by rintro rfl; simp at hd
      exact ⟨d, by rw [getLast?_cons_of_ne_nil ht]; exact hd, hpd⟩
    · obtain ⟨d, hd, hpd⟩ := pyParseUnsigned_last h
      have ht : t ≠ [] := by rintro rfl; simp at hd
      exact ⟨d, by rw [getLast?_cons_of_ne_nil ht]; exact hd, hpd⟩
    · exact pyParseUnsigned_last h

lemma pyParseUnsigned_head {sgn : ℤ} {cs : Str} {r : ℤ × ℤ}
    (h : pyParseUnsigned sgn cs = some r) :
    ∃ c t, cs = c :: t ∧ (isDigit c = true ∨ c = '.') := by
  match cs with
  | [] => simp [pyParseUnsigned, afterIntPart] at h
  | a :: t =>
    by_cases hda : isDigit a = true
    · exact ⟨a, t, rfl, Or.inl hda⟩
    · rw [pyParseUnsigned, List.takeWhile_cons, if_neg hda,
        List.dropWhile_cons, if_neg hda] at h
      simp only [afterIntPart] at h
      split_ifs at h with hdot hemp hipe
      · exact ⟨a, t, rfl, Or.inr hdot⟩
      · exact absurd rfl hipe

lemma pyParse_head {cs : Str} {r : ℤ × ℤ} (h : pyParse cs = some r) :
    ∃ c t, cs = c :: t ∧
      (isDigit c = true ∨ c = '+' ∨ c = '-' ∨ c = '.') := by
  match cs with
  | [] => simp [pyParse] at h
  | c :: t =>
    rw [pyParse] at h
    split_ifs at h with h1 h2
    · exact ⟨c, t, rfl, Or.inr (Or.inl h1)⟩
    · exact ⟨c, t, rfl, Or.inr (Or.inr (Or.inl h2))⟩
    · obtain ⟨c', t', heq, hc'⟩ := pyParseUnsigned_head h
      cases heq
      exact ⟨c, t, rfl, hc'.imp id (fun h => Or.inr (Or.inr h))⟩

/-! ### Stripping lemmas -/

lemma stripEnds_eq_self {p : Char → Bool} {l : Str}
    (hh : ∀ c, l.head? = some c → p c = false)
    (hl : ∀ c, l.getLast? = some c → p c = false) :
    stripEnds p l = l := by
  have h1 : l.dropWhile p = l := by
    cases l with
    | nil => rfl
    | cons a t =>
      rw [List.dropWhile_cons, if_neg (by simp [hh a rfl])]
  rw [stripEnds, h1]
  have h2 : l.reverse.dropWhile p = l.reverse := by
    cases hr : l.reverse with
    | nil => rfl
    | cons a t =>
      have ha : l.getLast? = some a := by
        rw [← List.head?_reverse, hr]; rfl
      rw [List.dropWhile_cons, if_neg (by simp [hl a ha])]
  rw [h2, List.reverse_reverse]

lemma stripEnds_head {p : Char → Bool} {l : Str} {c : Char}
    (h : (stripEnds p l).head? = some c) : p c = false := by
  rw [stripEnds, List.head?_reverse] at h
  have hne : (l.dropWhile p).reverse.dropWhile p ≠ [] := by
    rintro h0; rw [h0] at h; simp at h
  rw [getLast?_dropWhile_of_ne_nil hne, List.getLast?_reverse] at h
  exact head?_dropWhile h

lemma stripEnds_last {p : Char → Bool} {l : Str} {c : Char}
    (h : (stripEnds p l).getLast? = some c) : p c = false := by
  rw [stripEnds, List.getLast?_reverse] at h
  exact head?_dropWhile h

lemma stripSuffixes_eq_self {s : Str} {d : Char} (hd : s.getLast? = some d)
    (h1 : d ≠ '+') (h2 : d ≠ '%') : stripSuffixes s = s := by
  have c1 : ¬s.getLast? = some '+' := by rw [hd]; simp [h1]
  have c2 : ¬s.getLast? = some '%' := by rw [hd]; simp [h2]
  simp only [stripSuffixes, if_neg c1, if_neg c2]

/-! ### The value parser accepts every decimal literal unchanged -/

lemma lowerList_ne_of_head {s lit : Str} {c : Char} (hs : s.head? = some c)
    (hlit : lit.head? = some 'n') (hc : toLowerAscii c ≠ 'n') :
    lowerList s ≠ lit := by
  intro heq
  have := congrArg List.head? heq
  rw [lowerList, List.head?_map, hs, hlit] at this
  exact hc (by simpa using this)

lemma pyParse_toScaled {s : Str} {r : ℤ × ℤ} (h : pyParse s = some r) :
    toScaled (some s) = some r := by
  obtain ⟨c, t, rfl, hc⟩ := pyParse_head h
  obtain ⟨d, hd, hdp⟩ := pyParse_last h
  obtain ⟨hdsp, hdplus, hdpct⟩ := lastChar_props hdp
  have hstrip : stripWs (c :: t) = c :: t := by
    refine stripEnds_eq_self (fun x hx => ?_) (fun x hx => ?_)
    · simp only [List.head?_cons, Option.some.injEq] at hx
      subst hx
      exact headChar_not_space hc
    · rw [hd, Option.some.injEq] at hx
      subst hx
      exact hdsp
  have hn := toLowerAscii_ne_n hc
  have hlit1 : lowerList (c :: t) ≠ "na".data :=
    lowerList_ne_of_head rfl rfl hn
  have hlit2 : lowerList (c :: t) ≠ "n/a".data :=
    lowerList_ne_of_head rfl rfl hn
  have hlit3 : lowerList (c :: t) ≠ "none".data :=
    lowerList_ne_of_head rfl rfl hn
  have hsfx : stripSuffixes (c :: t) = c :: t :=
    stripSuffixes_eq_self hd hdplus hdpct
  simp only [toScaled, hstrip, hsfx, h]
  rw [if_neg]
  rintro (h0 | h0 | h0 | h0)
  · cases h0
  · exact hlit1 h0
  · exact hlit2 h0
  · exact hlit3 h0

lemma pyFloat_to_float {s : Str} {q : ℚ} (h : pyFloat s = some q) :
    to_float (some s) = some q := by
  rw [pyFloat] at h
  obtain ⟨r, hr, hval⟩ := Option.map_eq_some'.mp h
  rw [to_float, pyParse_toScaled hr]
  simpa using hval

/-! ### Claims -/

/-- C2: `to_float` trims whitespace, maps the case-insensitive literals
`""`, `"na"`, `"n/a"`, `"none"` to absent, strips one trailing `'+'` and
then one trailing `'%'`, and otherwise returns the standard decimal
parse of the remainder; in particular `to_float "50+" = 50.0`,
`to_float "12%" = 12.0`, and every decimal-formatted string parses to
its numeric value. -/
theorem claim_C2 :
    (∀ (s : Str) (q : ℚ), pyFloat s = some q → to_float (some s) = some q) ∧
    to_float (some "50+".data) = some 50 ∧
    to_float (some "12%".data) = some 12 ∧
    to_float (some "7%+".data) = some 7 ∧
    to_float (some "  3.5  ".data) = some (7 / 2) ∧
    to_float (some "".data) = none ∧
    to_float (some "NA".data) = none ∧
    to_float (some "n/a".data) = none ∧
    to_float (some "None".data) = none ∧
    to_float (some "50++".data) = none := by
  refine ⟨fun s q h => pyFloat_to_float h, ?_, ?_, ?_, ?_, ?_, ?_, ?_, ?_, ?_⟩
  · rw [to_float, show toScaled (some "50+".data) = some (50, 0) from by decide]
    norm_num [scaledVal]
  · rw [to_float, show toScaled (some "12%".data) = some (12, 0) from by decide]
    norm_num [scaledVal]
  · rw [to_float, show toScaled (some "7%+".data) = some (7, 0) from by decide]
    norm_num [scaledVal]
  · rw [to_float,
      show toScaled (some "  3.5  ".data) = some (35, -1) from by decide]
    norm_num [scaledVal]
  · rw [to_float, show toScaled (some "".data) = none from by decide]; rfl
  · rw [to_float, show toScaled (some "NA".data) = none from by decide]; rfl
  · rw [to_float, show toScaled (some "n/a".data) = none from by decide]; rfl
  · rw [to_float, show toScaled (some "None".data) = none from by decide]; rfl
  · rw [to_float, show toScaled (some "50++".data) = none from by decide]; rfl

/-- Witness for C2 at the decimal literal `"3.5"`. -/
theorem claim_C2_witness : to_float (some "3.5".data) = some (7 / 2) := by
  refine claim_C2.1 "3.5".data (7 / 2) ?_
  rw [pyFloat, show pyParse "3.5".data = some (35, -1) from by decide]
  norm_num [scaledVal]

/-- C6: `to_float` never raises: a `None` input yields absent, and any
text whose decimal parse fails after whitespace trimming and suffix
stripping yields absent. -/
theorem claim_C6 :
    to_float none = none ∧
    (∀ s : Str, pyFloat (stripSuffixes (stripWs s)) = none →
      to_float (some s) = none) := by
  refine ⟨rfl, fun s h => ?_⟩
  have hp : pyParse (stripSuffixes (stripWs s)) = none := by
    rw [pyFloat] at h
    exact Option.map_eq_none'.mp h
  rw [to_float]
  suffices hts : toScaled (some s) = none by rw [hts]; rfl
  simp only [toScaled]
  split_ifs with hc
  · rfl
  · exact hp

/-- Witness for C6 at the unparseable cell `"abc"`. -/
theorem claim_C6_witness : to_float (some "abc".data) = none := by
  refine claim_C6.2 "abc".data ?_
  rw [pyFloat, show pyParse (stripSuffixes (stripWs "abc".data)) = none from
    by decide]
  rfl

lemma build_sun_eq_map (rows : List Row) :
    build_sunscreen_comparison rows = rows.map sunRecordOf := by
  cases rows with
  | nil => rfl
  | cons a t => rfl

lemma build_cloth_eq_map (rows : List Row) :
    build_clothing_comparison rows = rows.map clothRecordOf := by
  cases rows with
  | nil => rfl
  | cons a t => rfl

/-- C1: `build_sunscreen_comparison` derives price-per-ml as
price / volume exactly when both parse and the volume is non-zero;
otherwise the derived metric is absent, and the builder is total. -/
theorem claim_C1 :
    (∀ (row : Row) (p v : ℚ),
        to_float (some (rowGet row colPrice)) = some p →
        to_float (some (rowGet row colVol)) = some v → v ≠ 0 →
        (sunRecordOf row).pricePerMl = some (p / v)) ∧
    (∀ row : Row,
        to_float (some (rowGet row colPrice)) = none ∨
        to_float (some (rowGet row colVol)) = none ∨
        to_float (some (rowGet row colVol)) = some 0 →
        (sunRecordOf row).pricePerMl = none) ∧
    (∀ rows : List Row,
        build_sunscreen_comparison rows = rows.map sunRecordOf) := by
  refine ⟨?_, ?_, build_sun_eq_map⟩
  · intro row p v hp hv hv0
    simp only [sunRecordOf, hp, hv]
    rw [if_neg hv0]
  · intro row h
    rcases h with h | h | h
    · simp only [sunRecordOf, h]
    · simp only [sunRecordOf, h]
      cases to_float (some (rowGet row colPrice)) <;> rfl
    · simp only [sunRecordOf, h]
      cases to_float (some (rowGet row colPrice)) with
      | none => rfl
      | some p =>
        show (if (0 : ℚ) = 0 then none else some (p / 0)) = none
        rw [if_pos rfl]

/-- Witness for C1: price `"20"` over volume `"100"` gives `0.2`;
volume `"0"` gives an absent metric. -/
theorem claim_C1_witness :
    (sunRecordOf [(colPrice, "20".data), (colVol, "100".data)]).pricePerMl
        = some (1 / 5) ∧
    (sunRecordOf [(colPrice, "20".data), (colVol, "0".data)]).pricePerMl
        = none := by
  constructor
  · have h := claim_C1.1 [(colPrice, "20".data), (colVol, "100".data)] 20 100
      (by rw [to_float, show toScaled (some (rowGet
          [(colPrice, "20".data), (colVol, "100".data)] colPrice))
            = some (20, 0) from by decide]
          norm_num [scaledVal])
      (by rw [to_float, show toScaled (some (rowGet
          [(colPrice, "20".data), (colVol, "100".data)] colVol))
            = some (100, 0) from by decide]
          norm_num [scaledVal])
      (by norm_num)
    rw [h]
    norm_num
  · refine claim_C1.2.1 [(colPrice, "20".data), (colVol, "0".data)]
      (Or.inr (Or.inr ?_))
    rw [to_float, show toScaled (some (rowGet
        [(colPrice, "20".data), (colVol, "0".data)] colVol))
          = some (0, 0) from by decide]
    norm_num [scaledVal]

/-- C3: both comparison builders are total, return exactly one record
per input row in input order (for any input length), and a row whose
metric cells all fail to parse still yields a record with all-absent
metric fields. -/
theorem claim_C3 :
    (∀ rows : List Row,
        (build_sunscreen_comparison rows).length = rows.length) ∧
    (∀ (rows : List Row) (i : ℕ),
        (build_sunscreen_comparison rows)[i]? = (rows[i]?).map sunRecordOf) ∧
    (∀ rows : List Row,
        (build_clothing_comparison rows).length = rows.length) ∧
    (∀ (rows : List Row) (i : ℕ),
        (build_clothing_comparison rows)[i]? = (rows[i]?).map clothRecordOf) ∧
    (∀ row : Row,
        to_float (some (rowGet row colSpfLab)) = none →
        to_float (some (rowGet row colUvaLab)) = none →
        to_float (some (rowGet row colBlLab)) = none →
        to_float (some (rowGet row colVisLab)) = none →
        to_float (some (rowGet row colPrice)) = none →
        to_float (some (rowGet row colVol)) = none →
        (sunRecordOf row).spfLab = none ∧
        (sunRecordOf row).uvaPfLab = none ∧
        (sunRecordOf row).blueLightLab = none ∧
        (sunRecordOf row).visibleLab = none ∧
        (sunRecordOf row).pricePerMl = none ∧
        (clothRecordOf row).spfLab = none ∧
        (clothRecordOf row).uvaPfLab = none ∧
        (clothRecordOf row).blueLightLab = none ∧
        (clothRecordOf row).visibleLab = none ∧
        (clothRecordOf row).price = none) := by
  refine ⟨?_, ?_, ?_, ?_, ?_⟩
  · intro rows; rw [build_sun_eq_map, List.length_map]
  · intro rows i; rw [build_sun_eq_map, List.getElem?_map]
  · intro rows; rw [build_cloth_eq_map, List.length_map]
  · intro rows i; rw [build_cloth_eq_map, List.getElem?_map]
  · intro row h1 h2 h3 h4 h5 h6
    refine ⟨?_, ?_, ?_, ?_, ?_, ?_, ?_, ?_, ?_, ?_⟩ <;>
      simp only [sunRecordOf, clothRecordOf, h1, h2, h3, h4, h5, h6]

/-- Witness for C3 at the empty row (every metric cell absent). -/
theorem claim_C3_witness :
    (sunRecordOf []).spfLab = none ∧
    (sunRecordOf []).uvaPfLab = none ∧
    (sunRecordOf []).blueLightLab = none ∧
    (sunRecordOf []).visibleLab = none ∧
    (sunRecordOf []).pricePerMl = none ∧
    (clothRecordOf []).spfLab = none ∧
    (clothRecordOf []).uvaPfLab = none ∧
    (clothRecordOf []).blueLightLab = none ∧
    (clothRecordOf []).visibleLab = none ∧
    (clothRecordOf []).price = none :=
  claim_C3.2.2.2.2 [] (by decide) (by decide) (by decide) (by decide)
    (by decide) (by decide)

lemma rowGet_projRow {cols : List Str} {r : Row} {c : Str} (hc : c ∈ cols) :
    rowGet (cols.map (fun c2 => (c2, rowGet r c2))) c = rowGet r c := by
  induction cols with
  | nil => cases hc
  | cons a t ih =>
    rw [List.map_cons, rowGet]
    by_cases hac : a = c
    · rw [if_pos hac, hac]
    · rw [if_neg hac]
      rcases List.mem_cons.mp hc with h | h
      · exact absurd h.symm hac
      · exact ih h

/-- C4: `safe_select_columns` keeps exactly the desired columns that
exist, in desired order, preserves the row count, and leaves the cell
content of every kept column unchanged; with no matching column it
yields a zero-column table over the same rows. -/
theorem claim_C4 (df : Table) (desired : List Str) :
    (safe_select_columns df desired).cols
        = desired.filter (fun c => df.cols.contains c) ∧
    (safe_select_columns df desired).rows.length = df.rows.length ∧
    (∀ (i : ℕ) (r : Row) (c : Str),
        df.rows[i]? = some r →
        c ∈ (safe_select_columns df desired).cols →
        ∃ r2, (safe_select_columns df desired).rows[i]? = some r2 ∧
          rowGet r2 c = rowGet r c) := by
  simp only [safe_select_columns]
  split_ifs with hp
  · refine ⟨(List.isEmpty_iff.mp hp).symm, List.length_map _ _, ?_⟩
    intro i r c _ hc
    exact absurd hc (List.not_mem_nil c)
  · refine ⟨rfl, List.length_map _ _, ?_⟩
    intro i r c hi hc
    refine ⟨(desired.filter (fun c2 => df.cols.contains c2)).map
      (fun c2 => (c2, rowGet r c2)), ?_, rowGet_projRow hc⟩
    rw [List.getElem?_map, hi]
    rfl

/-- Witness for C4: columns `[A, B, C]` with desired `[C, A, Z]` keep
`[C, A]` in that order, and the kept cell `C` is unchanged. -/
theorem claim_C4_witness :
    ∃ r2,
      (safe_select_columns
          ⟨["A".data, "B".data, "C".data],
            [[("A".data, "1".data), ("B".data, "2".data),
              ("C".data, "3".data)]]⟩
          ["C".data, "A".data, "Z".data]).rows[0]? = some r2 ∧
      rowGet r2 "C".data =
        rowGet [("A".data, "1".data), ("B".data, "2".data),
          ("C".data, "3".data)] "C".data :=
  (claim_C4 ⟨["A".data, "B".data, "C".data],
      [[("A".data, "1".data), ("B".data, "2".data), ("C".data, "3".data)]]⟩
      ["C".data, "A".data, "Z".data]).2.2 0
    [("A".data, "1".data), ("B".data, "2".data), ("C".data, "3".data)]
    "C".data (by decide) (by decide)

/-- C5: when the trimmed brand and name are both empty, `make_label`
bases the label on the first cell of the row with non-empty trimmed
text (in column order), and the final label carries no leading or
trailing space / em-dash separator artifacts. -/
theorem claim_C5 (row : Row) (kind : Str)
    (hb : stripWs (rowGet row colBrand) = [])
    (hn : stripWs (rowGet row colName) = []) :
    make_label row kind = stripSep (fallbackCell row ++ extraOf row kind) ∧
    (∀ c, (make_label row kind).head? = some c → isSepChar c = false) ∧
    (∀ c, (make_label row kind).getLast? = some c → isSepChar c = false) := by
  have hml : make_label row kind
      = stripSep (fallbackCell row ++ extraOf row kind) := by
    simp only [make_label, hb, hn]
    rw [if_pos (by decide)]
  refine ⟨hml, fun c hc => ?_, fun c hc => ?_⟩
  · rw [hml, stripSep] at hc
    exact stripEnds_head hc
  · rw [hml, stripSep] at hc
    exact stripEnds_last hc

/-- Witness for C5: a row with blank brand, no name column, and one
non-empty cell. -/
theorem claim_C5_witness :
    make_label [(colBrand, "  ".data), ("Note".data, " hi ".data)]
        "cloth".data
      = stripSep
        (fallbackCell [(colBrand, "  ".data), ("Note".data, " hi ".data)] ++
          extraOf [(colBrand, "  ".data), ("Note".data, " hi ".data)]
            "cloth".data) :=
  (claim_C5 [(colBrand, "  ".data), ("Note".data, " hi ".data)]
    "cloth".data (by decide) (by decide)).1

lemma intercalate_pair (sep a b : Str) :
    List.intercalate sep [a, b] = a ++ sep ++ b := by
  simp [List.intercalate, List.intersperse, List.append_assoc]

/-- C8: with non-empty trimmed brand and name, `make_label` joins them
with an em dash, appends `"<vol> ml"` for sunscreens (resp. the material
for clothing) when the trimmed field is non-empty and not `"nan"`, and
`{brand: "Acme", name: "Shield", volume: "50"}` labels as
`"Acme — Shield — 50 ml"`. -/
theorem claim_C8 :
    (∀ row : Row,
        stripWs (rowGet row colBrand) ≠ [] →
        stripWs (rowGet row colName) ≠ [] →
        make_label row "sun".data =
          stripSep (stripWs (rowGet row colBrand) ++ " — ".data ++
            stripWs (rowGet row colName) ++ sunExtra row) ∧
        make_label row "cloth".data =
          stripSep (stripWs (rowGet row colBrand) ++ " — ".data ++
            stripWs (rowGet row colName) ++ clothExtra row)) ∧
    (∀ (row : Row) (v : Str),
        stripWs (rowGet row colVol) = v → v ≠ [] →
        lowerList v ≠ "nan".data →
        sunExtra row = " — ".data ++ v ++ " ml".data) ∧
    make_label [(colBrand, "Acme".data), (colName, "Shield".data),
        (colVol, "50".data)] "sun".data
      = "Acme — Shield — 50 ml".data := by
  refine ⟨?_, ?_, by decide⟩
  · intro row hbne hnne
    have hbase : List.intercalate " — ".data
        ([stripWs (rowGet row colBrand),
          stripWs (rowGet row colName)].filter (fun x => !x.isEmpty))
        = stripWs (rowGet row colBrand) ++ " — ".data ++
          stripWs (rowGet row colName) := by
      rw [List.filter_cons_of_pos (by simpa using hbne),
        List.filter_cons_of_pos (by simpa using hnne), List.filter_nil,
        intercalate_pair]
    have hne : stripWs (rowGet row colBrand) ++ " — ".data ++
        stripWs (rowGet row colName) ≠ [] :=
      List.append_ne_nil_of_right_ne_nil _ hnne
    constructor
    · simp only [make_label, hbase]
      rw [if_neg (by simp [hne]),
        show extraOf row "sun".data = sunExtra row from by
          rw [extraOf, if_pos rfl]]
    · simp only [make_label, hbase]
      rw [if_neg (by simp [hne]),
        show extraOf row "cloth".data = clothExtra row from by
          rw [extraOf, if_neg (by decide), if_pos rfl]]
  · intro row v hv hne hnan
    simp only [sunExtra, hv]
    rw [if_pos ⟨hne, hnan⟩]

/-- Witness for C8 at the `Acme / Shield / 50` row. -/
theorem claim_C8_witness :
    make_label [(colBrand, "Acme".data), (colName, "Shield".data),
        (colVol, "50".data)] "sun".data
      = stripSep (stripWs (rowGet [(colBrand, "Acme".data),
          (colName, "Shield".data), (colVol, "50".data)] colBrand) ++
          " — ".data ++
          stripWs (rowGet [(colBrand, "Acme".data),
            (colName, "Shield".data), (colVol, "50".data)] colName) ++
          sunExtra [(colBrand, "Acme".data), (colName, "Shield".data),
            (colVol, "50".data)]) :=
  (claim_C8.1 [(colBrand, "Acme".data), (colName, "Shield".data),
    (colVol, "50".data)] (by decide) (by decide)).1

/-- C9: with the show-all toggle off, the selected view keeps exactly
the rows whose label is among the chosen strings, in table order, with
the columns untouched; two distinct rows sharing a chosen label are
both kept. -/
theorem claim_C9 :
    (∀ (tbl : Table) (kind : Str) (chosen : List Str),
        (selectRows tbl kind chosen false).cols = tbl.cols ∧
        (selectRows tbl kind chosen false).rows =
          tbl.rows.filter (fun r => chosen.contains (make_label r kind))) ∧
    (∀ (tbl : Table) (kind : Str) (chosen : List Str)
        (pre mid post : List Row) (r1 r2 : Row),
        tbl.rows = pre ++ r1 :: (mid ++ r2 :: post) →
        make_label r1 kind = make_label r2 kind →
        chosen.contains (make_label r1 kind) = true →
        ∃ pre2 mid2 post2,
          (selectRows tbl kind chosen false).rows =
            pre2 ++ r1 :: (mid2 ++ r2 :: post2)) := by
  refine ⟨fun tbl kind chosen => ⟨rfl, rfl⟩, ?_⟩
  intro tbl kind chosen pre mid post r1 r2 hrows heq hin
  refine ⟨pre.filter (fun r => chosen.contains (make_label r kind)),
    mid.filter (fun r => chosen.contains (make_label r kind)),
    post.filter (fun r => chosen.contains (make_label r kind)), ?_⟩
  show tbl.rows.filter (fun r => chosen.contains (make_label r kind)) = _
  have hin2 : chosen.contains (make_label r2 kind) = true := heq ▸ hin
  rw [hrows, List.filter_append,
    List.filter_cons_of_pos (p := fun r => chosen.contains (make_label r kind))
      hin,
    List.filter_append,
    List.filter_cons_of_pos (p := fun r => chosen.contains (make_label r kind))
      hin2]

/-- Witness for C9: two distinct rows with the same label, both kept. -/
theorem claim_C9_witness :
    ∃ pre2 mid2 post2,
      (selectRows
          ⟨[], [[(colBrand, "Acme".data), (colName, "X".data)],
            [(colBrand, "Acme".data), (colName, "X".data),
              ("Note".data, "z".data)]]⟩
          "sun".data ["Acme — X".data] false).rows =
        pre2 ++ [(colBrand, "Acme".data), (colName, "X".data)] ::
          (mid2 ++ [(colBrand, "Acme".data), (colName, "X".data),
            ("Note".data, "z".data)] :: post2) :=
  claim_C9.2
    ⟨[], [[(colBrand, "Acme".data), (colName, "X".data)],
      [(colBrand, "Acme".data), (colName, "X".data),
        ("Note".data, "z".data)]]⟩
    "sun".data ["Acme — X".data] [] [] []
    [(colBrand, "Acme".data), (colName, "X".data)]
    [(colBrand, "Acme".data), (colName, "X".data), ("Note".data, "z".data)]
    (by decide) (by decide) (by decide)

/-- C7: a failed sheet read yields the empty table together with a
descriptive error condition naming the sheet, and leaves the other
category's load outcome untouched. -/
theorem claim_C7 :
    (∀ (e : Str) (rClo : Except Str Table),
        loadBoth (Except.error e) rClo =
          ((emptyTable, some (loadErrorMsg sheetSun e)),
            loadResult sheetClo rClo)) ∧
    (∀ (e : Str) (rSun : Except Str Table),
        loadBoth rSun (Except.error e) =
          (loadResult sheetSun rSun,
            (emptyTable, some (loadErrorMsg sheetClo e)))) ∧
    (∀ sheet e : Str, List.IsInfix sheet (loadErrorMsg sheet e)) := by
  refine ⟨fun e r => rfl, fun e r => rfl, fun sheet e => ?_⟩
  exact ⟨"Could not load sheet \x27".data,
    "\x27 from ".data ++ "photoprotection_catalogue_template.xlsx".data ++
      ": ".data ++ e,
    by simp [loadErrorMsg, List.append_assoc]⟩

/-- C10: a second `load_sheet` call with the same `(path, sheet)` key
returns the identical table and performs no additional source read. -/
theorem claim_C10 (read : Str × Str → Table) (st0 : CacheState)
    (key : Str × Str) :
    (load_sheet_cached read (load_sheet_cached read st0 key).2 key).1 =
      (load_sheet_cached read st0 key).1 ∧
    (load_sheet_cached read (load_sheet_cached read st0 key).2 key).2.readCount
      = (load_sheet_cached read st0 key).2.readCount := by
  cases hlk : cacheLookup st0.entries key with
  | some t =>
    simp only [load_sheet_cached, hlk]
    exact ⟨trivial, trivial⟩
  | none =>
    have h2 : cacheLookup ((key, read key) :: st0.entries) key
        = some (read key) := by
      rw [cacheLookup, if_pos rfl]
    simp only [load_sheet_cached, hlk, h2]
    exact ⟨trivial, trivial⟩

end Catalogue
